import Mathlib

/-!
Verification of the astronomical core of the stellarium-indian-clock
repository (`src/utils/helpers.py` and the ancient-unit arithmetic of
`src/app.py`).

The repository's own numeric code (sampling scans, bisection, ternary
search, wrapping and unit arithmetic) is embedded over exact rationals.
Calls into the external astropy library (solar altitude, sidereal time,
coordinate transforms) are not part of this repository; they enter the
embedded functions as oracle parameters (`alt`, `lst`, `err`), or, where a
claim needs a concrete instance, as a model built from the specification's
description of the external behaviour.  Times are Julian dates in days,
angles in degrees, sidereal values in hours, exactly as in the source.
-/

/-- Sign-of-divisor remainder: the exact-arithmetic meaning of Python's
`x % m` (and numpy's `np.mod`) on reals, used throughout `helpers.py`.
For `m > 0` the value lies in `[0, m)`. -/
def fmod (x m : ℚ) : ℚ := x - m * ⌊x / m⌋

/-- Wrap a sidereal-hour difference into `[-12, 12)`: the expression
`(lst_val - target + 12) % 24 - 12` from `find_time_for_lst` in
`src/utils/helpers.py`. -/
def wrap12 (x : ℚ) : ℚ := fmod (x + 12) 24 - 12

/-- Azimuth difference wrapped into `[-180, 180)`: the expression
`(az - target_az_deg + 180) % 360 - 180` from `error_at_jd` inside
`solve_time_from_altaz` in `src/utils/helpers.py`. -/
def azWrapDiff (az target : ℚ) : ℚ := fmod (az - target + 180) 360 - 180

/-- The sunrise altitude threshold `-0.833` degrees from
`approximate_sunrise_utc_for_local_date` (written as an exact fraction). -/
def sunriseTarget : ℚ := -833 / 1000

/-- Number of altitude samples: `n_steps = 1440 // step_minutes + 1`
(natural-number division, as in the source). -/
def numSamples (stepMinutes : ℕ) : ℕ := 1440 / stepMinutes + 1

/-- Local-day minute of the last altitude sample,
`step_minutes * (n_steps - 1)`. -/
def lastSampleMinute (stepMinutes : ℕ) : ℕ :=
  stepMinutes * (numSamples stepMinutes - 1)

/-- The scan loop `for i in range(len(alt_vals) - 1)` of
`approximate_sunrise_utc_for_local_date`: starting at index `i` with
`fuel` iterations left, return the first index `j` whose pair
`(alt j, alt (j+1))` crosses upward through `sunriseTarget`. -/
def scanCross (alt : ℕ → ℚ) : ℕ → ℕ → Option ℕ
  | _, 0 => none
  | i, fuel + 1 =>
    if alt i < sunriseTarget ∧ sunriseTarget ≤ alt (i + 1) then some i
    else scanCross alt (i + 1) fuel

/-- The guarded crossing fraction
`frac = (target - a0) / (a1 - a0) if (a1 != a0) else 0.0`. -/
def interpFrac (a0 a1 : ℚ) : ℚ :=
  if a1 = a0 then 0 else (sunriseTarget - a0) / (a1 - a0)

/-- Embedding of `approximate_sunrise_utc_for_local_date`
(`src/utils/helpers.py`, lines 21-48).  Time is measured in minutes on an
absolute UTC scale; `localMidnight` is the local date's 00:00 on that
scale, and the UTC scan start is `local_midnight - timedelta(hours=tz)`.
The solar altitude at sample `i` (an astropy computation, external to the
repository) is the oracle `alt i`.  On the first upward crossing the
result is the linear interpolation between the bracketing sample times;
otherwise the scan start (local midnight in UTC) is returned. -/
def approximateSunriseUtc (alt : ℕ → ℚ) (localMidnight tzOffsetHours : ℚ)
    (stepMinutes : ℕ) : ℚ :=
  let start := localMidnight - 60 * tzOffsetHours
  match scanCross alt 0 (numSamples stepMinutes - 1) with
  | some i =>
      start + (stepMinutes : ℚ) * (i : ℚ)
        + interpFrac (alt i) (alt (i + 1)) * (stepMinutes : ℚ)
  | none => start

/-- The residual `f(t)` of `find_time_for_lst`: sidereal time at `t`
minus the target, wrapped into `[-12, 12)` hours.  `lst` is the oracle
for astropy's `sidereal_time` at the solver's fixed longitude. -/
def lstResidual (lst : ℚ → ℚ) (target t : ℚ) : ℚ := wrap12 (lst t - target)

/-- The 60-iteration bisection loop of `find_time_for_lst`, with the
source's early exit `abs(fm) < 1e-7` and the sign test `fl * fm <= 0`.
Times are Julian dates in days. -/
def bisectLoop (f : ℚ → ℚ) : ℕ → ℚ → ℚ → ℚ → ℚ → ℚ
  | 0, l, r, _, _ => (l + r) / 2
  | fuel + 1, l, r, fl, fr =>
    if |f ((l + r) / 2)| < 1 / 10000000 then (l + r) / 2
    else if fl * f ((l + r) / 2) ≤ 0 then
      bisectLoop f fuel l ((l + r) / 2) fl (f ((l + r) / 2))
    else bisectLoop f fuel ((l + r) / 2) r (f ((l + r) / 2)) fr

/-- The widening loop `for _ in range(8)` of `find_time_for_lst`: while
the residual has the same sign at both ends, move each end outward by
6 hours (1/4 day) and re-evaluate.  State is `(left, right, fl, fr)`. -/
def widenLoop (f : ℚ → ℚ) : ℕ → ℚ × ℚ × ℚ × ℚ → ℚ × ℚ × ℚ × ℚ
  | 0, st => st
  | fuel + 1, (l, r, fl, fr) =>
    if fl * fr ≤ 0 then (l, r, fl, fr)
    else widenLoop f fuel (l - 1/4, r + 1/4, f (l - 1/4), f (r + 1/4))

/-- Embedding of `find_time_for_lst` (`src/utils/helpers.py`, lines
50-81).  The initial window is `[approx - 12h, approx + 12h]` (±1/2 day);
after at most 8 widenings, if the residual still has the same strict sign
at both ends the approximate instant is returned unchanged, otherwise the
60-iteration bisection runs on the bracketed window. -/
def findTimeForLst (lst : ℚ → ℚ) (target approx : ℚ) : ℚ :=
  let f := fun t => lstResidual lst target t
  let l0 := approx - 1/2
  let r0 := approx + 1/2
  let st := widenLoop f 8 (l0, r0, f l0, f r0)
  if st.2.2.1 * st.2.2.2 > 0 then approx
  else bisectLoop f 60 st.1 st.2.1 st.2.2.1 st.2.2.2

/-- Modelled from the spec: astropy's `sidereal_time` (an external
library call, absent from src) is, per the specification, the apparent
local sidereal time in hours at the given longitude.  It is modelled here
by the standard mean-sidereal linear function of Julian date,
`(18.697374558 + 24.06570982441908 * (jd - 2451545) + lon / 15) mod 24`
(constants written as exact fractions), which has the properties the
solver relies on: hours in `[0, 24)`, advancing at the sidereal rate,
periodic in 24 hours. -/
def lstModel (lonDeg jd : ℚ) : ℚ :=
  fmod (18697374558 / 1000000000
    + (2406570982441908 / 100000000000000) * (jd - 2451545) + lonDeg / 15) 24

/-- The exact instant inside the window `[2451545 - 1/2, 2451545 + 1/2]`
at which `lstModel 0` equals `18.7245` hours. -/
def lstModelRoot : ℚ :=
  2451545 + (187245 / 10000 - 18697374558 / 1000000000)
    / (2406570982441908 / 100000000000000)

/-- The 80-iteration ternary-search loop of `solve_time_from_altaz`,
keeping at each step the two thirds of the interval around the smaller
of the two probe errors. -/
def ternLoop (err : ℚ → ℚ) : ℕ → ℚ → ℚ → ℚ × ℚ
  | 0, a, b => (a, b)
  | fuel + 1, a, b =>
    if err (a + (b - a) / 3) < err (a + 2 * (b - a) / 3) then
      ternLoop err fuel a (a + 2 * (b - a) / 3)
    else ternLoop err fuel (a + (b - a) / 3) b

/-- Embedding of `solve_time_from_altaz` (`src/utils/helpers.py`, lines
83-118).  `err` is the oracle for `error_at_jd` (astropy transform plus
`np.hypot` of the altitude difference and the `azWrapDiff`-wrapped
azimuth difference).  The search window is `[approx - 12h, approx + 12h]`
in Julian days; the result is the midpoint of the final interval paired
with the error evaluated there. -/
def solveTimeFromAltAz (err : ℚ → ℚ) (approx : ℚ) : ℚ × ℚ :=
  let p := ternLoop err 80 (approx - 1/2) (approx + 1/2)
  let best := (p.1 + p.2) / 2
  (best, err best)

/-- One output row of `compute_stars_positions_for_time`: the fields the
claims constrain. -/
structure StarRow where
  altDeg : ℚ
  azDeg : ℚ
  visible : Bool
deriving DecidableEq

/-- The per-star body of `compute_stars_positions_for_time`
(`src/utils/helpers.py`, lines 159-178): `visible` is computed from the
raw (unclipped) altitude, then the dataframe post-processing applies
`np.mod(az, 360)` and `clip(-90, 90)`.  The raw altitude and azimuth are
astropy outputs, passed in as inputs. -/
def starRowOf (rawAlt rawAz : ℚ) : StarRow :=
  { altDeg := min 90 (max (-90) rawAlt)
    azDeg := fmod rawAz 360
    visible := decide (0 < rawAlt) }

/-- Embedding of the whole per-star loop: one `StarRow` per raw
(altitude, azimuth) pair. -/
def computeStarsPositions (raw : List (ℚ × ℚ)) : List StarRow :=
  raw.map fun p => starRowOf p.1 p.2

/-- The ancient-clock reading derived in `src/app.py`. -/
structure AncientTimeReading where
  ghati : ℚ
  muhurta : ℚ
  yama : ℚ
deriving DecidableEq

/-- Embedding of the ancient-unit arithmetic of `src/app.py`, lines
194-197: `ghati = seconds / 1440`, `muhurta = ghati / 2`,
`yama = ghati / 7.5` (the literal `7.5` written as `15/2`). -/
def deriveAncientUnits (secondsSinceSunrise : ℚ) : AncientTimeReading :=
  let g := secondsSinceSunrise / 1440
  { ghati := g, muhurta := g / 2, yama := g / (15 / 2) }

/-- Modelled from the spec: `to_earthlocation` (`src/utils/helpers.py`,
lines 9-10) delegates all validation to the external astropy
`EarthLocation` constructor, which is absent from src.  Per that
constructor's documented behaviour, a latitude outside `[-90, 90]`
raises (modelled as `none`), while the geodetic longitude is silently
wrapped into `[-180, 180)` and the height is unconstrained. -/
def toEarthlocationModel (latDeg lonDeg heightM : ℚ) : Option (ℚ × ℚ × ℚ) :=
  if latDeg < -90 ∨ 90 < latDeg then none
  else some (latDeg, fmod (lonDeg + 180) 360 - 180, heightM)

/-! ### Helper lemmas -/

theorem fmod_nonneg_of_pos (x m : ℚ) (hm : 0 < m) : 0 ≤ fmod x m := by
  have h1 : ((⌊x / m⌋ : ℤ) : ℚ) ≤ x / m := Int.floor_le _
  have h2 : m * ((⌊x / m⌋ : ℤ) : ℚ) ≤ m * (x / m) :=
    mul_le_mul_of_nonneg_left h1 hm.le
  have h3 : m * (x / m) = x := by field_simp
  unfold fmod
  linarith

theorem fmod_lt_of_pos (x m : ℚ) (hm : 0 < m) : fmod x m < m := by
  have h1 : x / m < ((⌊x / m⌋ : ℤ) : ℚ) + 1 := Int.lt_floor_add_one _
  have h2 : m * (x / m) < m * (((⌊x / m⌋ : ℤ) : ℚ) + 1) :=
    mul_lt_mul_of_pos_left h1 hm
  have h3 : m * (x / m) = x := by field_simp
  rw [mul_add, mul_one] at h2
  unfold fmod
  linarith

theorem interpFrac_eq (a0 a1 : ℚ) (h0 : a0 < sunriseTarget)
    (h1 : sunriseTarget ≤ a1) :
    interpFrac a0 a1 = (sunriseTarget - a0) / (a1 - a0) := by
  unfold interpFrac
  rw [if_neg]
  intro he
  rw [he] at h1
  linarith

theorem interpFrac_pos (a0 a1 : ℚ) (h0 : a0 < sunriseTarget)
    (h1 : sunriseTarget ≤ a1) : 0 < interpFrac a0 a1 := by
  rw [interpFrac_eq a0 a1 h0 h1]
  exact div_pos (by linarith) (by linarith)

theorem interpFrac_le_one (a0 a1 : ℚ) (h0 : a0 < sunriseTarget)
    (h1 : sunriseTarget ≤ a1) : interpFrac a0 a1 ≤ 1 := by
  rw [interpFrac_eq a0 a1 h0 h1, div_le_one (by linarith)]
  linarith

theorem scanCross_none (alt : ℕ → ℚ) :
    ∀ fuel i : ℕ, scanCross alt i fuel = none ↔
      ∀ k : ℕ, k < fuel →
        ¬(alt (i + k) < sunriseTarget ∧ sunriseTarget ≤ alt (i + k + 1)) := by
  intro fuel
  induction fuel with
  | zero => intro i; simp [scanCross]
  | succ n ih =>
    intro i
    by_cases h : alt i < sunriseTarget ∧ sunriseTarget ≤ alt (i + 1)
    · simp only [scanCross, if_pos h]
      refine iff_of_false (by simp) ?_
      intro hall
      have h0 := hall 0 (by omega)
      simp only [Nat.add_zero] at h0
      exact h0 h
    · simp only [scanCross, if_neg h]
      rw [ih (i + 1)]
      constructor
      · intro h1 k hk
        cases k with
        | zero => simpa only [Nat.add_zero] using h
        | succ m =>
          have hm := h1 m (by omega)
          have e : i + 1 + m = i + (m + 1) := by omega
          rw [e] at hm
          exact hm
      · intro h2 k hk
        have hm := h2 (k + 1) (by omega)
        have e : i + (k + 1) = i + 1 + k := by omega
        rw [e] at hm
        exact hm

theorem scanCross_some_spec (alt : ℕ → ℚ) :
    ∀ fuel i j : ℕ, scanCross alt i fuel = some j →
      i ≤ j ∧ j < i + fuel ∧
        (alt j < sunriseTarget ∧ sunriseTarget ≤ alt (j + 1)) := by
  intro fuel
  induction fuel with
  | zero => intro i j h; simp [scanCross] at h
  | succ n ih =>
    intro i j h
    by_cases hc : alt i < sunriseTarget ∧ sunriseTarget ≤ alt (i + 1)
    · simp only [scanCross, if_pos hc, Option.some.injEq] at h
      subst h
      exact ⟨le_refl i, by omega, hc⟩
    · simp only [scanCross, if_neg hc] at h
      obtain ⟨h1, h2, h3⟩ := ih (i + 1) j h
      exact ⟨by omega, by omega, h3⟩

theorem scanCross_first (alt : ℕ → ℚ) :
    ∀ fuel i j : ℕ, i ≤ j → j < i + fuel →
      (alt j < sunriseTarget ∧ sunriseTarget ≤ alt (j + 1)) →
      (∀ k : ℕ, i ≤ k → k < j →
        ¬(alt k < sunriseTarget ∧ sunriseTarget ≤ alt (k + 1))) →
      scanCross alt i fuel = some j := by
  intro fuel
  induction fuel with
  | zero => intro i j h1 h2 _ _; omega
  | succ n ih =>
    intro i j h1 h2 hc hmin
    by_cases hci : alt i < sunriseTarget ∧ sunriseTarget ≤ alt (i + 1)
    · have he : i = j := by
        by_contra hne
        exact hmin i (le_refl i) (by omega) hci
      subst he
      simp [scanCross, hci]
    · have hne : i ≠ j := fun he => hci (he ▸ hc)
      simp only [scanCross, if_neg hci]
      exact ih (i + 1) j (by omega) (by omega) hc
        (fun k hk1 hk2 => hmin k (by omega) hk2)

/-! ### Claim theorems -/

/-- C4: for every local date, location, timezone offset and positive step,
the sunrise solver returns local midnight expressed in UTC (local 00:00
minus the offset) exactly when the sampled altitudes contain no upward
crossing through -0.833 degrees anywhere in the scanned day, and in no
other case. -/
theorem C4_sunrise_fallback (alt : ℕ → ℚ) (localMidnight tz : ℚ)
    (step : ℕ) (hstep : 0 < step) :
    approximateSunriseUtc alt localMidnight tz step = localMidnight - 60 * tz
      ↔ ∀ k : ℕ, k < numSamples step - 1 →
          ¬(alt k < sunriseTarget ∧ sunriseTarget ≤ alt (k + 1)) := by
  cases hscan : scanCross alt 0 (numSamples step - 1) with
  | none =>
    have hall := (scanCross_none alt (numSamples step - 1) 0).mp hscan
    simp only [Nat.zero_add] at hall
    simp only [approximateSunriseUtc, hscan]
    exact iff_of_true (by simp) hall
  | some j =>
    obtain ⟨hj0, hjlt, hcross⟩ := scanCross_some_spec alt _ 0 j hscan
    simp only [Nat.zero_add] at hjlt
    simp only [approximateSunriseUtc, hscan]
    refine iff_of_false ?_ ?_
    · intro heq
      have hfrac := interpFrac_pos (alt j) (alt (j + 1)) hcross.1 hcross.2
      have hstepQ : (0 : ℚ) < (step : ℚ) := by exact_mod_cast hstep
      have hjQ : (0 : ℚ) ≤ (j : ℚ) := Nat.cast_nonneg j
      have hterm1 : (0 : ℚ) ≤ (step : ℚ) * (j : ℚ) :=
        mul_nonneg hstepQ.le hjQ
      have hterm2 : (0 : ℚ) < interpFrac (alt j) (alt (j + 1)) * (step : ℚ) :=
        mul_pos hfrac hstepQ
      linarith [heq]
    · intro hall
      exact hall j hjlt hcross

/-- C4 witness: with a constant zero altitude profile (never below the
threshold) and step 10, the solver returns the UTC instant of local
midnight, and the no-crossing condition holds. -/
theorem C4_sunrise_fallback_witness :
    approximateSunriseUtc (fun _ => (0 : ℚ)) 0 0 10 = 0 - 60 * 0 ↔
      ∀ k : ℕ, k < numSamples 10 - 1 →
        ¬((0 : ℚ) < sunriseTarget ∧ sunriseTarget ≤ (0 : ℚ)) :=
  C4_sunrise_fallback (fun _ => 0) 0 0 10 (by decide)

/-- C6: every row produced by the per-star position computation is
well-formed: azimuth in `[0, 360)`, altitude in `[-90, 90]`, and the
visibility flag true exactly when the raw (unclipped) altitude is
strictly positive. -/
theorem C6_star_row_wellformed (raw : List (ℚ × ℚ)) (p : ℚ × ℚ)
    (hp : p ∈ raw) :
    starRowOf p.1 p.2 ∈ computeStarsPositions raw ∧
    0 ≤ (starRowOf p.1 p.2).azDeg ∧ (starRowOf p.1 p.2).azDeg < 360 ∧
    -90 ≤ (starRowOf p.1 p.2).altDeg ∧ (starRowOf p.1 p.2).altDeg ≤ 90 ∧
    ((starRowOf p.1 p.2).visible = true ↔ 0 < p.1) := by
  refine ⟨List.mem_map_of_mem _ hp, ?_, ?_, ?_, ?_, ?_⟩
  · exact fmod_nonneg_of_pos p.2 360 (by norm_num)
  · exact fmod_lt_of_pos p.2 360 (by norm_num)
  · show -90 ≤ min 90 (max (-90) p.1)
    exact le_min (by norm_num) (le_max_left _ _)
  · show min 90 (max (-90) p.1) ≤ 90
    exact min_le_left _ _
  · show decide (0 < p.1) = true ↔ 0 < p.1
    exact decide_eq_true_iff

/-- C6 witness: a star whose raw astropy output is altitude 1 degree and
azimuth 400 degrees yields a well-formed visible row. -/
theorem C6_star_row_wellformed_witness :
    starRowOf ((1 : ℚ), (400 : ℚ)).1 ((1 : ℚ), (400 : ℚ)).2
        ∈ computeStarsPositions [((1 : ℚ), (400 : ℚ))] ∧
    0 ≤ (starRowOf ((1 : ℚ), (400 : ℚ)).1 ((1 : ℚ), (400 : ℚ)).2).azDeg ∧
    (starRowOf ((1 : ℚ), (400 : ℚ)).1 ((1 : ℚ), (400 : ℚ)).2).azDeg < 360 ∧
    -90 ≤ (starRowOf ((1 : ℚ), (400 : ℚ)).1 ((1 : ℚ), (400 : ℚ)).2).altDeg ∧
    (starRowOf ((1 : ℚ), (400 : ℚ)).1 ((1 : ℚ), (400 : ℚ)).2).altDeg ≤ 90 ∧
    ((starRowOf ((1 : ℚ), (400 : ℚ)).1 ((1 : ℚ), (400 : ℚ)).2).visible = true ↔
      0 < ((1 : ℚ), (400 : ℚ)).1) :=
  C6_star_row_wellformed [((1 : ℚ), (400 : ℚ))] ((1 : ℚ), (400 : ℚ)) (by simp)

/-- C7: the ancient-unit derivation is pure arithmetic with
`ghati = s / 1440`, `muhurta = ghati / 2` and `yama = ghati / 7.5`
(`7.5 = 15/2`); at `s = 1440` it yields ghati 1, muhurta 1/2 and yama
`2/15 = 0.1333...`, and at `s = 0` all three are zero. -/
theorem C7_ancient_units :
    (∀ s : ℚ, deriveAncientUnits s
        = ⟨s / 1440, s / 1440 / 2, s / 1440 / (15 / 2)⟩) ∧
    deriveAncientUnits 1440 = ⟨1, 1 / 2, 2 / 15⟩ ∧
    deriveAncientUnits 0 = ⟨0, 0, 0⟩ := by
  refine ⟨fun s => rfl, ?_, ?_⟩
  · with_unfolding_all decide
  · with_unfolding_all decide

/-- C8: the inversion solver's azimuth wrap expression
`(az - target + 180) mod 360 - 180` always lies in `[-180, 180)`. -/
theorem C8_az_wrap_range (az target : ℚ) :
    -180 ≤ azWrapDiff az target ∧ azWrapDiff az target < 180 := by
  unfold azWrapDiff
  constructor
  · have := fmod_nonneg_of_pos (az - target + 180) 360 (by norm_num)
    linarith
  · have := fmod_lt_of_pos (az - target + 180) 360 (by norm_num)
    linarith

/-- C9: evaluation at the failing input.  A longitude of 500 degrees is
out of range, yet location construction succeeds, silently wrapping the
longitude to 140 degrees instead of rejecting the input (only an
out-of-range latitude is rejected, as the second conjunct shows). -/
theorem C9_validation_gap :
    toEarthlocationModel 10 500 0 = some (10, 140, 0) ∧
    toEarthlocationModel 100 0 0 = none := by
  with_unfolding_all decide

/-- C10: under the crossing precondition (`a0` strictly below the
threshold, `a1` at or above it) the interpolation denominator is
strictly positive, the guarded division-by-zero branch collapses to the
plain quotient, the crossing fraction lies in `(0, 1]`, and the
interpolated instant lies strictly after sample time `t0` and at or
before sample time `t1`. -/
theorem C10_interp_safety (a0 a1 t0 t1 : ℚ) (h0 : a0 < sunriseTarget)
    (h1 : sunriseTarget ≤ a1) (ht : t0 < t1) :
    0 < a1 - a0 ∧
    interpFrac a0 a1 = (sunriseTarget - a0) / (a1 - a0) ∧
    0 < interpFrac a0 a1 ∧ interpFrac a0 a1 ≤ 1 ∧
    t0 < t0 + interpFrac a0 a1 * (t1 - t0) ∧
    t0 + interpFrac a0 a1 * (t1 - t0) ≤ t1 := by
  have hfrac := interpFrac_pos a0 a1 h0 h1
  have hle := interpFrac_le_one a0 a1 h0 h1
  refine ⟨by linarith, interpFrac_eq a0 a1 h0 h1, hfrac, hle, ?_, ?_⟩
  · have := mul_pos hfrac (by linarith : (0 : ℚ) < t1 - t0)
    linarith
  · have := mul_le_of_le_one_left (by linarith : (0 : ℚ) ≤ t1 - t0) hle
    linarith

/-- C10 witness: concrete crossing with `a0 = -1`, `a1 = 0` and the
sample interval `[0, 1]`. -/
theorem C10_interp_safety_witness :
    0 < (0 : ℚ) - (-1) ∧
    interpFrac (-1) 0 = (sunriseTarget - (-1)) / ((0 : ℚ) - (-1)) ∧
    0 < interpFrac (-1) 0 ∧ interpFrac (-1) 0 ≤ 1 ∧
    (0 : ℚ) < 0 + interpFrac (-1) 0 * (1 - 0) ∧
    (0 : ℚ) + interpFrac (-1) 0 * (1 - 0) ≤ 1 :=
  C10_interp_safety (-1) 0 0 1 (by norm_num [sunriseTarget])
    (by norm_num [sunriseTarget]) (by norm_num)

theorem ternLoop_bounds (err : ℚ → ℚ) :
    ∀ fuel : ℕ, ∀ a b : ℚ, a ≤ b →
      a ≤ (ternLoop err fuel a b).1 ∧
      (ternLoop err fuel a b).1 ≤ (ternLoop err fuel a b).2 ∧
      (ternLoop err fuel a b).2 ≤ b := by
  intro fuel
  induction fuel with
  | zero =>
    intro a b hab
    simp only [ternLoop]
    exact ⟨le_refl a, hab, le_refl b⟩
  | succ n ih =>
    intro a b hab
    simp only [ternLoop]
    by_cases h : err (a + (b - a) / 3) < err (a + 2 * (b - a) / 3)
    · rw [if_pos h]
      obtain ⟨g1, g2, g3⟩ := ih a (a + 2 * (b - a) / 3) (by linarith)
      exact ⟨g1, g2, by linarith⟩
    · rw [if_neg h]
      obtain ⟨g1, g2, g3⟩ := ih (a + (b - a) / 3) b (by linarith)
      exact ⟨by linarith, g2, g3⟩

/-- C3: the alt/az inversion solver performs the 80-iteration ternary
search over the window `[approx - 12h, approx + 12h]` (1/2 day each
side), keeping at each step the third of the interval with the smaller
error (the definition of `ternLoop`); it returns the midpoint of the
final interval together with the residual error evaluated at that
midpoint, and the returned instant always lies within 12 hours of the
approximate instant.  The scalar error function itself (astropy
transform plus `np.hypot` with `azWrapDiff` azimuth wrapping) is the
oracle `err`. -/
theorem C3_altaz_ternary (err : ℚ → ℚ) (approx : ℚ) :
    solveTimeFromAltAz err approx
      = (((ternLoop err 80 (approx - 1/2) (approx + 1/2)).1
            + (ternLoop err 80 (approx - 1/2) (approx + 1/2)).2) / 2,
         err (((ternLoop err 80 (approx - 1/2) (approx + 1/2)).1
            + (ternLoop err 80 (approx - 1/2) (approx + 1/2)).2) / 2)) ∧
    (solveTimeFromAltAz err approx).2
      = err (solveTimeFromAltAz err approx).1 ∧
    |(solveTimeFromAltAz err approx).1 - approx| ≤ 1 / 2 := by
  obtain ⟨g1, g2, g3⟩ :=
    ternLoop_bounds err 80 (approx - 1/2) (approx + 1/2) (by linarith)
  refine ⟨rfl, rfl, ?_⟩
  have he : (solveTimeFromAltAz err approx).1
      = ((ternLoop err 80 (approx - 1/2) (approx + 1/2)).1
          + (ternLoop err 80 (approx - 1/2) (approx + 1/2)).2) / 2 := rfl
  rw [he, abs_le]
  constructor <;> linarith

theorem widenLoop_of_bracket (f : ℚ → ℚ) (fuel : ℕ) (l r fl fr : ℚ)
    (h : fl * fr ≤ 0) : widenLoop f fuel (l, r, fl, fr) = (l, r, fl, fr) := by
  cases fuel with
  | zero => rfl
  | succ n => simp only [widenLoop, if_pos h]

theorem widenLoop_shape (f : ℚ → ℚ) :
    ∀ fuel : ℕ, ∀ l r : ℚ, ∃ k : ℕ, k ≤ fuel ∧
      widenLoop f fuel (l, r, f l, f r)
        = (l - (k : ℚ) * (1/4), r + (k : ℚ) * (1/4),
           f (l - (k : ℚ) * (1/4)), f (r + (k : ℚ) * (1/4))) := by
  intro fuel
  induction fuel with
  | zero =>
    intro l r
    refine ⟨0, le_refl 0, ?_⟩
    norm_num [widenLoop]
  | succ n ih =>
    intro l r
    by_cases h : f l * f r ≤ 0
    · refine ⟨0, by omega, ?_⟩
      rw [widenLoop_of_bracket f (n + 1) l r (f l) (f r) h]
      norm_num
    · obtain ⟨k, hk, he⟩ := ih (l - 1/4) (r + 1/4)
      refine ⟨k + 1, by omega, ?_⟩
      have e1 : l - 1/4 - (k : ℚ) * (1/4) = l - ((k + 1 : ℕ) : ℚ) * (1/4) := by
        push_cast
        ring
      have e2 : r + 1/4 + (k : ℚ) * (1/4) = r + ((k + 1 : ℕ) : ℚ) * (1/4) := by
        push_cast
        ring
      simp only [widenLoop, if_neg h]
      rw [he, e1, e2]

/-- C5: the sidereal-match solver's residual is the difference of actual
and target sidereal time wrapped into `[-12, 12)` hours (first
conjunct); starting from the window `[approx - 12h, approx + 12h]` the
widening loop only ever produces a window symmetrically enlarged by `k`
6-hour (1/4 day) increments on each side for some `k ≤ 8` (second
conjunct); and when the residual has the same strict sign at both ends
of every such window the solver returns the approximate instant
unchanged (third conjunct). -/
theorem C5_lst_bracketing :
    (∀ lst : ℚ → ℚ, ∀ target t : ℚ,
        -12 ≤ lstResidual lst target t ∧ lstResidual lst target t < 12) ∧
    (∀ f : ℚ → ℚ, ∀ l r : ℚ, ∃ k : ℕ, k ≤ 8 ∧
        widenLoop f 8 (l, r, f l, f r)
          = (l - (k : ℚ) * (1/4), r + (k : ℚ) * (1/4),
             f (l - (k : ℚ) * (1/4)), f (r + (k : ℚ) * (1/4)))) ∧
    (∀ lst : ℚ → ℚ, ∀ target approx : ℚ,
        (∀ k : ℕ, k ≤ 8 →
            0 < lstResidual lst target (approx - 1/2 - (k : ℚ) * (1/4))
              * lstResidual lst target (approx + 1/2 + (k : ℚ) * (1/4))) →
        findTimeForLst lst target approx = approx) := by
  refine ⟨?_, ?_, ?_⟩
  · intro lst target t
    unfold lstResidual wrap12
    have h1 := fmod_nonneg_of_pos (lst t - target + 12) 24 (by norm_num)
    have h2 := fmod_lt_of_pos (lst t - target + 12) 24 (by norm_num)
    constructor <;> linarith
  · intro f l r
    exact widenLoop_shape f 8 l r
  · intro lst target approx hall
    obtain ⟨k, hk, he⟩ := widenLoop_shape (fun t => lstResidual lst target t)
      8 (approx - 1/2) (approx + 1/2)
    simp only [findTimeForLst]
    rw [he]
    dsimp only
    rw [if_pos (hall k hk)]

/-- C5 witness: a constant sidereal oracle whose residual is everywhere
-6 hours never brackets, so the solver returns the approximate instant. -/
theorem C5_lst_bracketing_witness :
    findTimeForLst (fun _ => (0 : ℚ)) 6 0 = 0 :=
  C5_lst_bracketing.2.2 (fun _ => 0) 6 0 (by with_unfolding_all decide)

theorem abs_le_abs_sub_of_mul_nonpos (a b : ℚ) (h : a * b ≤ 0) :
    |a| ≤ |a - b| := by
  rcases abs_cases a with ⟨e1, s1⟩ | ⟨e1, s1⟩ <;>
    rcases abs_cases (a - b) with ⟨e2, s2⟩ | ⟨e2, s2⟩ <;>
      rw [e1, e2] <;> nlinarith

theorem mul_nonpos_chain (fl fm fr : ℚ) (h1 : fl * fr ≤ 0)
    (h2 : ¬fl * fm ≤ 0) : fm * fr ≤ 0 := by
  push_neg at h2
  by_contra hpos
  push_neg at hpos
  have h5 : 0 < fl * fm * (fm * fr) := mul_pos h2 hpos
  nlinarith [sq_nonneg fm]

theorem bisectLoop_resid_bound (f : ℚ → ℚ) (L : ℚ)
    (hLip : ∀ a b : ℚ, |f a - f b| ≤ L * |a - b|) :
    ∀ fuel : ℕ, ∀ l r : ℚ, l ≤ r → f l * f r ≤ 0 →
      |f (bisectLoop f fuel l r (f l) (f r))| < 1 / 10000000 ∨
      |f (bisectLoop f fuel l r (f l) (f r))|
        ≤ 3 / 2 * L * ((r - l) / 2 ^ fuel) := by
  intro fuel
  induction fuel with
  | zero =>
    intro l r hlr hbr
    right
    simp only [bisectLoop, pow_zero]
    have h1 : |f l| ≤ |f l - f r| := abs_le_abs_sub_of_mul_nonpos _ _ hbr
    have h2 : |f l - f r| ≤ L * |l - r| := hLip l r
    have h3 : |l - r| = r - l := by
      rw [abs_sub_comm, abs_of_nonneg (by linarith)]
    have h4 : |f ((l + r) / 2) - f l| ≤ L * |(l + r) / 2 - l| := hLip _ _
    have h5 : |(l + r) / 2 - l| = (r - l) / 2 := by
      have e : (l + r) / 2 - l = (r - l) / 2 := by ring
      rw [e, abs_of_nonneg (by linarith)]
    have h6 : |f ((l + r) / 2)| ≤ |f l| + |f ((l + r) / 2) - f l| := by
      have e : f ((l + r) / 2) = f l + (f ((l + r) / 2) - f l) := by ring
      calc |f ((l + r) / 2)| = |f l + (f ((l + r) / 2) - f l)| := by rw [← e]
        _ ≤ |f l| + |f ((l + r) / 2) - f l| := abs_add _ _
    rw [h3] at h2
    rw [h5] at h4
    have hdiv : (r - l) / 1 = r - l := by ring
    rw [hdiv]
    linarith
  | succ n ih =>
    intro l r hlr hbr
    by_cases hexit : |f ((l + r) / 2)| < 1 / 10000000
    · left
      simp only [bisectLoop, if_pos hexit]
      exact hexit
    · by_cases hsgn : f l * f ((l + r) / 2) ≤ 0
      · have key := ih l ((l + r) / 2) (by linarith) hsgn
        have h2n : (2 : ℚ) ^ n ≠ 0 := by positivity
        have e : ((l + r) / 2 - l) / 2 ^ n = (r - l) / 2 ^ (n + 1) := by
          rw [pow_succ]
          field_simp
          ring
        simp only [bisectLoop, if_neg hexit, if_pos hsgn]
        rcases key with hk | hk
        · exact Or.inl hk
        · right
          rw [e] at hk
          exact hk
      · have hbr2 : f ((l + r) / 2) * f r ≤ 0 :=
          mul_nonpos_chain (f l) (f ((l + r) / 2)) (f r) hbr hsgn
        have key := ih ((l + r) / 2) r (by linarith) hbr2
        have h2n : (2 : ℚ) ^ n ≠ 0 := by positivity
        have e : (r - (l + r) / 2) / 2 ^ n = (r - l) / 2 ^ (n + 1) := by
          rw [pow_succ]
          field_simp
          ring
        simp only [bisectLoop, if_neg hexit, if_neg hsgn]
        rcases key with hk | hk
        · exact Or.inl hk
        · right
          rw [e] at hk
          exact hk

/-- C2 (amended): whenever the wrapped residual is Lipschitz on the time
axis with a constant at most 10^9 hours per day (in particular, the
wrap discontinuity does not fall inside the bracketing window) and the
residual brackets at the initial window `[approx - 12h, approx + 12h]`,
the sidereal time at the instant returned by the solver agrees with the
target to within 10^-6 hours (modulo 24 h, i.e. the wrapped residual at
the result is at most 10^-6 in absolute value). -/
theorem C2_lst_roundtrip_amended (lst : ℚ → ℚ) (target approx L : ℚ)
    (hL : L ≤ 1000000000)
    (hLip : ∀ a b : ℚ,
        |lstResidual lst target a - lstResidual lst target b| ≤ L * |a - b|)
    (hBr : lstResidual lst target (approx - 1/2)
        * lstResidual lst target (approx + 1/2) ≤ 0) :
    |lstResidual lst target (findTimeForLst lst target approx)|
      ≤ 1 / 1000000 := by
  have hw := widenLoop_of_bracket (fun t => lstResidual lst target t) 8
    (approx - 1/2) (approx + 1/2)
    (lstResidual lst target (approx - 1/2))
    (lstResidual lst target (approx + 1/2)) hBr
  have key := bisectLoop_resid_bound (fun t => lstResidual lst target t) L
    hLip 60 (approx - 1/2) (approx + 1/2) (by linarith) hBr
  simp only [findTimeForLst]
  rw [hw]
  dsimp only
  rw [if_neg (not_lt.mpr hBr)]
  have e : approx + 1/2 - (approx - 1/2) = 1 := by ring
  rw [e] at key
  have h260 : (0 : ℚ) < 1 / 2 ^ 60 := by positivity
  have hval : 3 / 2 * L * (1 / 2 ^ 60) ≤ 1 / 1000000 := by
    have hs : 3 / 2 * L * (1 / 2 ^ 60)
        ≤ 3 / 2 * 1000000000 * (1 / 2 ^ 60) := by
      have := mul_le_mul_of_nonneg_left hL (by norm_num : (0 : ℚ) ≤ 3 / 2)
      exact mul_le_mul_of_nonneg_right this h260.le
    have hn : (3 : ℚ) / 2 * 1000000000 * (1 / 2 ^ 60) ≤ 1 / 1000000 := by
      norm_num
    linarith
  rcases key with hk | hk
  · have : (1 : ℚ) / 10000000 ≤ 1 / 1000000 := by norm_num
    linarith
  · linarith

/-- C2 amended witness: a constant sidereal oracle matching the target
exactly has residual constantly zero, which is 0-Lipschitz and brackets;
the solver's result then satisfies the round-trip bound. -/
theorem C2_lst_roundtrip_amended_witness :
    |lstResidual (fun _ => (5 : ℚ)) 5 (findTimeForLst (fun _ => (5 : ℚ)) 5 0)|
      ≤ 1 / 1000000 :=
  C2_lst_roundtrip_amended (fun _ => 5) 5 0 0 (by norm_num)
    (by
      intro a b
      have h0 : ∀ t : ℚ, lstResidual (fun _ => (5 : ℚ)) 5 t = wrap12 (5 - 5) :=
        fun t => rfl
      have h1 : wrap12 ((5 : ℚ) - 5) = 0 := by with_unfolding_all decide
      rw [h0 a, h0 b, h1]
      simp)
    (by with_unfolding_all decide)

set_option maxRecDepth 100000 in
/-- C2 counterexample: with the spec-modelled sidereal function at
longitude 0, target 18.7245 h and approximate instant JD 2451545, the
initial window genuinely brackets (the residual changes sign across the
window and an exact root `lstModelRoot` lies inside it), yet the wrapped
residual at the instant the solver returns exceeds 10^-6 hours — the
bisection converges to the wrap discontinuity of the residual instead of
the root, so the claimed round-trip identity fails. -/
theorem C2_counterexample :
    lstResidual (lstModel 0) (187245/10000) (2451545 - 1/2)
        * lstResidual (lstModel 0) (187245/10000) (2451545 + 1/2) ≤ 0 ∧
    2451545 - 1/2 ≤ lstModelRoot ∧ lstModelRoot ≤ 2451545 + 1/2 ∧
    lstResidual (lstModel 0) (187245/10000) lstModelRoot = 0 ∧
    ¬|lstResidual (lstModel 0) (187245/10000)
        (findTimeForLst (lstModel 0) (187245/10000) 2451545)|
      ≤ 1 / 1000000 := by
  with_unfolding_all decide

/-- C1 counterexample: for `stepMinutes = 7` (a positive step that does
not divide 1440) the last altitude sample falls at minute 1435 of the
local day (23:55 local), not at minute 1440 (24:00 local), so the solver
does not sample the full civil day up to 24:00 for every positive step. -/
theorem C1_counterexample :
    lastSampleMinute 7 = 1435 ∧ lastSampleMinute 7 ≠ 1440 := by decide

/-- C1 (amended): the sunrise solver samples the solar altitude at
`stepMinutes` resolution starting from 00:00 local (converted to UTC by
subtracting the offset), taking `1440 / stepMinutes + 1` samples, so the
scan covers the local day up to minute
`stepMinutes * (1440 / stepMinutes)` — exactly 24:00 local when
`stepMinutes` divides 1440 and earlier otherwise (second conjunct);
it scans the samples in order for the first index `i` with
`altitude i < -0.833` and `altitude (i+1) >= -0.833` and returns the
instant obtained by linear interpolation of the crossing fraction
between the two bracketing sample times (first conjunct). -/
theorem C1_sunrise_scan_amended (alt : ℕ → ℚ) (localMidnight tz : ℚ)
    (step : ℕ) (i : ℕ) (_hstep : 0 < step) (hi : i + 1 < numSamples step)
    (hc1 : alt i < sunriseTarget) (hc2 : sunriseTarget ≤ alt (i + 1))
    (hfirst : ∀ j : ℕ, j < i →
        ¬(alt j < sunriseTarget ∧ sunriseTarget ≤ alt (j + 1))) :
    approximateSunriseUtc alt localMidnight tz step
      = localMidnight - 60 * tz + (step : ℚ) * (i : ℚ)
        + (sunriseTarget - alt i) / (alt (i + 1) - alt i) * (step : ℚ) ∧
    step * (numSamples step - 1) + 1440 % step = 1440 := by
  constructor
  · have hscan : scanCross alt 0 (numSamples step - 1) = some i :=
      scanCross_first alt (numSamples step - 1) 0 i (Nat.zero_le i)
        (by omega) ⟨hc1, hc2⟩ (fun k _ hk2 => hfirst k hk2)
    simp only [approximateSunriseUtc, hscan]
    rw [interpFrac_eq (alt i) (alt (i + 1)) hc1 hc2]
  · have h1 : numSamples step - 1 = 1440 / step :=
      Nat.add_sub_cancel (1440 / step) 1
    rw [h1]
    exact Nat.div_add_mod 1440 step

/-- C1 amended witness: an altitude profile that is -1 degree at sample
0 and 0 degrees afterwards crosses at index 0; with step 10 the solver
returns the interpolated instant, and the coverage identity holds. -/
theorem C1_sunrise_scan_amended_witness :
    approximateSunriseUtc (fun j => if j = 0 then (-1 : ℚ) else 0) 0 0 10
      = 0 - 60 * 0 + (10 : ℚ) * ((0 : ℕ) : ℚ)
        + (sunriseTarget - (if (0 : ℕ) = 0 then (-1 : ℚ) else 0))
          / ((if (0 : ℕ) + 1 = 0 then (-1 : ℚ) else 0)
              - (if (0 : ℕ) = 0 then (-1 : ℚ) else 0)) * (10 : ℚ) ∧
    10 * (numSamples 10 - 1) + 1440 % 10 = 1440 :=
  C1_sunrise_scan_amended (fun j => if j = 0 then (-1 : ℚ) else 0) 0 0 10 0
    (by decide) (by decide) (by with_unfolding_all decide)
    (by with_unfolding_all decide) (fun j hj => absurd hj (Nat.not_lt_zero j))
